import Mathlib

/-!
Verification of the pathmaker routing engine.

The development shallowly embeds the routing core of the crate:

* `normalize_url` (src/lib.rs): query-stripping plus percent-decoding of a
  template string.  The Rust code works on the UTF-8 bytes of the string
  (`percent_encoding::percent_decode(...).decode_utf8_lossy()`); we model it
  the same way: encode the characters to UTF-8 bytes, percent-decode the
  bytes, and lossily re-decode to characters.
* the pattern compiler `parse` (src/router/route.rs): splits the normalized
  template on `/`, skips the first piece, and compiles every piece either to
  a typed capture (via `MATCH_KINDS`) or to an escaped literal; the pieces
  are joined by `/` and anchored with `^`/`$`.
* the router (src/router/mod.rs, src/router/build.rs): ordered route list,
  a set-matcher holding the compiled patterns in the same order, an optional
  default handler, and the `lookup` pipeline.

Regular expressions produced by the compiler are modelled semantically: a
compiled route is the list of its per-segment sub-languages (`SegPattern`),
and matching the anchored pattern `^/s1/s2/.../sn$` is whole-string
membership in the concatenation of the factors `/si` (`routeMatches`).
Strings are modelled as `List Char`.
-/

namespace Pathmaker

/-! ### UTF-8 bytes and percent-decoding (models the behavior of
`str::as_bytes`, `percent_encoding::percent_decode` and
`Cow::decode_utf8_lossy` used by `normalize_url`). -/

/-- UTF-8 encoding of one unicode scalar value, as byte values. -/
def utf8Encode (c : Char) : List Nat :=
  let n := c.toNat
  if n < 0x80 then [n]
  else if n < 0x800 then [0xC0 + n / 64, 0x80 + n % 64]
  else if n < 0x10000 then [0xE0 + n / 4096, 0x80 + (n / 64) % 64, 0x80 + n % 64]
  else [0xF0 + n / 262144, 0x80 + (n / 4096) % 64, 0x80 + (n / 64) % 64, 0x80 + n % 64]

/-- Value of an ASCII hex digit byte (`0-9`, `a-f`, `A-F`), if it is one.
Percent-decoding accepts both letter cases. -/
def hexDigitVal (b : Nat) : Option Nat :=
  if 48 ≤ b ∧ b ≤ 57 then some (b - 48)
  else if 97 ≤ b ∧ b ≤ 102 then some (b - 87)
  else if 65 ≤ b ∧ b ≤ 70 then some (b - 55)
  else none

/-- Percent-decoding over bytes, as in the `percent_encoding` crate: a `%`
followed by two hex digits becomes the denoted byte; a `%` not followed by
two hex digits is passed through and scanning continues with the next byte.
(37 is the byte of the percent sign.) -/
def percentDecodeAux : Nat → List Nat → List Nat
  | 0, l => l
  | _, [] => []
  | fuel + 1, 37 :: h1 :: h2 :: rest2 =>
    match hexDigitVal h1, hexDigitVal h2 with
    | some v1, some v2 => (16 * v1 + v2) :: percentDecodeAux fuel rest2
    | _, _ => 37 :: percentDecodeAux fuel (h1 :: h2 :: rest2)
  | fuel + 1, 37 :: rest => 37 :: percentDecodeAux fuel rest
  | fuel + 1, b :: rest => b :: percentDecodeAux fuel rest

/-- Percent-decoding of a byte list.  Every step of `percentDecodeAux`
consumes at least one input byte, so a fuel of the input length always
suffices and the fuel-exhausted branch is unreachable. -/
def percentDecodeBytes (l : List Nat) : List Nat := percentDecodeAux l.length l

/-- The unicode replacement character U+FFFD emitted by lossy decoding. -/
def replChar : Char := Char.ofNat 0xFFFD

/-- Value of a UTF-8 continuation byte (`0x80..0xBF`), if it is one. -/
def contVal (b : Nat) : Option Nat :=
  if 0x80 ≤ b ∧ b ≤ 0xBF then some (b - 0x80) else none

/-- Admissible second byte of a three-byte sequence (excludes overlong
encodings and surrogates as UTF-8 validation does). -/
def validSecondOfThree (b1 b2 : Nat) : Bool :=
  if b1 = 0xE0 then 0xA0 ≤ b2 && b2 ≤ 0xBF
  else if b1 = 0xED then 0x80 ≤ b2 && b2 ≤ 0x9F
  else 0x80 ≤ b2 && b2 ≤ 0xBF

/-- Admissible second byte of a four-byte sequence (excludes overlong
encodings and scalars above U+10FFFF). -/
def validSecondOfFour (b1 b2 : Nat) : Bool :=
  if b1 = 0xF0 then 0x90 ≤ b2 && b2 ≤ 0xBF
  else if b1 = 0xF4 then 0x80 ≤ b2 && b2 ≤ 0x8F
  else 0x80 ≤ b2 && b2 ≤ 0xBF

/-- Decode one scalar from a byte stream whose first byte is `b1` and whose
remaining bytes are `rest`: a well-formed sequence yields its scalar and the
bytes after it; an ill-formed sequence yields U+FFFD and resumes after the
maximal valid prefix (the substitution-of-maximal-subparts policy used by
Rust's `decode_utf8_lossy`). -/
def utf8Step (b1 : Nat) (rest : List Nat) : Char × List Nat :=
  if b1 < 0x80 then (Char.ofNat b1, rest)
  else if 0xC2 ≤ b1 ∧ b1 ≤ 0xDF then
    match rest with
    | [] => (replChar, [])
    | b2 :: rest2 =>
      match contVal b2 with
      | some v2 => (Char.ofNat ((b1 - 0xC0) * 64 + v2), rest2)
      | none => (replChar, b2 :: rest2)
  else if 0xE0 ≤ b1 ∧ b1 ≤ 0xEF then
    match rest with
    | [] => (replChar, [])
    | b2 :: rest2 =>
      if validSecondOfThree b1 b2 then
        match rest2 with
        | [] => (replChar, [])
        | b3 :: rest3 =>
          match contVal b3 with
          | some v3 => (Char.ofNat ((b1 - 0xE0) * 4096 + (b2 - 0x80) * 64 + v3), rest3)
          | none => (replChar, b3 :: rest3)
      else (replChar, b2 :: rest2)
  else if 0xF0 ≤ b1 ∧ b1 ≤ 0xF4 then
    match rest with
    | [] => (replChar, [])
    | b2 :: rest2 =>
      if validSecondOfFour b1 b2 then
        match rest2 with
        | [] => (replChar, [])
        | b3 :: rest3 =>
          match contVal b3 with
          | some v3 =>
            match rest3 with
            | [] => (replChar, [])
            | b4 :: rest4 =>
              match contVal b4 with
              | some v4 =>
                (Char.ofNat ((b1 - 0xF0) * 262144 + (b2 - 0x80) * 4096 + v3 * 64 + v4),
                  rest4)
              | none => (replChar, b4 :: rest4)
          | none => (replChar, b3 :: rest3)
      else (replChar, b2 :: rest2)
  else (replChar, rest)

def utf8DecodeAux : Nat → List Nat → List Char
  | 0, _ => []
  | _, [] => []
  | fuel + 1, b1 :: rest =>
    (utf8Step b1 rest).1 :: utf8DecodeAux fuel (utf8Step b1 rest).2

/-- Lossy UTF-8 decoding of a byte list, one scalar at a time via
`utf8Step`.  On valid UTF-8 input this is the exact inverse of
`utf8Encode`.  `utf8Step` leaves a remainder no longer than its input and
one leading byte is consumed besides, so a fuel of the input length always
suffices and the fuel-exhausted branch is unreachable. -/
def utf8DecodeLossy (l : List Nat) : List Char := utf8DecodeAux l.length l

/-- Models `normalize_url` (src/lib.rs): take the part of the string before
the first `?` (`split_terminator("?").next().unwrap_or(str)` — for a string
with no `?` this is the whole string, for the empty string it is empty),
then percent-decode its UTF-8 bytes and lossily re-decode them. -/
def normalize_url (s : List Char) : List Char :=
  let url := s.takeWhile (fun c => c != '?')
  utf8DecodeLossy (percentDecodeBytes (List.flatten (url.map utf8Encode)))

/-! ### The pattern compiler (src/router/route.rs) -/

/-- The per-segment sub-language of a compiled pattern.  Each constructor is
one of the parenthesized fragments the compiler can emit for a segment:

* `literal s`  — `regex::escape(part)`: every metacharacter of the segment is
  escaped, so the fragment matches exactly the text `s` (no capture group);
* `string`     — `([^/]+)` (kinds `string` and the bare placeholder);
* `int`        — `([-+]?\\d+)`;
* `uint`       — `(\\d+)`;
* `uuid`       — `([a-fA-F0-9]{8}-[a-fA-F0-9]{4}-[a-fA-F0-9]{4}-[a-fA-F0-9]{4}-[a-fA-F0-9]{12})`;
* `any`        — `([^/]*)` (the fallback for unknown kinds). -/
inductive SegPattern : Type
  | literal (s : List Char)
  | string
  | int
  | uint
  | uuid
  | any
deriving DecidableEq, Repr

/-- Whether the fragment carries a capture group: all placeholder fragments
are parenthesized, an escaped literal is not. -/
def SegPattern.isCapture : SegPattern → Bool
  | .literal _ => false
  | _ => true

/-- Membership in the character class `[a-fA-F0-9]`. -/
def isHexChar (c : Char) : Bool :=
  c.isDigit || ('a' ≤ c && c ≤ 'f') || ('A' ≤ c && c ≤ 'F')

/-- Consume exactly `n` ASCII hex digits (the class `[a-fA-F0-9]`),
returning the remainder. -/
def hexTake : Nat → List Char → Option (List Char)
  | 0, l => some l
  | _ + 1, [] => none
  | n + 1, c :: cs => if isHexChar c then hexTake n cs else none

/-- Consume a hyphen followed by exactly `n` hex digits. -/
def dashHex (n : Nat) (l : List Char) : Option (List Char) :=
  match l with
  | c :: rest => if c = '-' then hexTake n rest else none
  | [] => none

/-- Whole-string membership in the `uuid` fragment
`[a-fA-F0-9]{8}-[a-fA-F0-9]{4}-[a-fA-F0-9]{4}-[a-fA-F0-9]{4}-[a-fA-F0-9]{12}`. -/
def uuidMatch (l : List Char) : Bool :=
  (((((hexTake 8 l).bind (dashHex 4)).bind (dashHex 4)).bind
      (dashHex 4)).bind (dashHex 12)) = some ([] : List Char)

/-- Whole-string membership of a string in one segment fragment.  `\\d` is
modelled as an ASCII digit (the inputs the crate's tests and docs exercise
are ASCII; the regex crate's `\\d` additionally accepts other Unicode decimal
digits, which no claim depends on). -/
def segMatches : SegPattern → List Char → Bool
  | .literal s, l => l = s
  | .string, l => !l.isEmpty && l.all (fun c => c != '/')
  | .int, [] => false
  | .int, c :: cs =>
    if c = '-' ∨ c = '+' then !cs.isEmpty && cs.all Char.isDigit
    else c.isDigit && cs.all Char.isDigit
  | .uint, l => !l.isEmpty && l.all Char.isDigit
  | .uuid, l => uuidMatch l
  | .any, l => l.all (fun c => c != '/')

/-- Word character, the class `\\w` of the kind grammar (ASCII part; the
regex crate's `\\w` is Unicode-aware, which no claim depends on). -/
def isWordChar (c : Char) : Bool := c.isAlpha || c.isDigit || c = '_'

/-- A valid kind name: `[a-zA-Z]\\w*`. -/
def validKindName : List Char → Bool
  | [] => false
  | c :: cs => c.isAlpha && cs.all isWordChar

/-- Models the `SEGMENT_MATCH` regex `^\\x7b(?::(?P<kind>[a-zA-Z]\\w*))?\\x7d$`
applied to one segment: `none` if the segment is not a placeholder,
`some none` for the bare `\x7b\x7d` placeholder (no kind given), and
`some (some kind)` for `\x7b:kind\x7d`. -/
def placeholderKind (part : List Char) : Option (Option (List Char)) :=
  if part = ['\x7b', '\x7d'] then some none
  else
    match part with
    | c1 :: c2 :: rest =>
      if c1 = '\x7b' ∧ c2 = ':' ∧ rest.getLast? = some '\x7d' ∧
          validKindName rest.dropLast then
        some (some rest.dropLast)
      else none
    | _ => none

/-- The `MATCH_KINDS` table (a `phf` map from kind name to fragment). -/
def MATCH_KINDS (name : List Char) : Option SegPattern :=
  if name = "string".data then some .string
  else if name = "int".data then some .int
  else if name = "uint".data then some .uint
  else if name = "uuid".data then some .uuid
  else none

/-- Compilation of one segment, the closure inside `parse`: a placeholder
segment is looked up in `MATCH_KINDS` (kind name defaulting to `string` when
omitted, and any unknown kind falling back to the fragment `([^/]*)`); any
other segment is escaped and becomes an exact literal. -/
def compileSegment (part : List Char) : SegPattern :=
  match placeholderKind part with
  | some kind => (MATCH_KINDS (kind.getD "string".data)).getD .any
  | none => .literal part

/-- Rust's `str::split` on one separator character: the list of (possibly
empty) pieces between separators.  Splitting the empty string yields one
empty piece. -/
def splitOnChar (sep : Char) : List Char → List (List Char)
  | [] => [[]]
  | c :: cs =>
    if c = sep then [] :: splitOnChar sep cs
    else
      match splitOnChar sep cs with
      | [] => [[c]]
      | p :: ps => (c :: p) :: ps

/-- Models `parse` (src/router/route.rs): normalize the template, split it
on `/`, skip the first piece, and compile each remaining piece.  The
compiled regex is `^/f1/f2/.../fn$` where the `fi` are the per-segment
fragments; we keep the fragment list, whose matching semantics is
`routeMatches`. -/
def parse (path : List Char) : List SegPattern :=
  ((splitOnChar '/' (normalize_url path)).drop 1).map compileSegment

/-- Whole-string matching of the compiled anchored pattern
`^/f1/f2/.../fn$` against a path: the leading `^` and trailing `$` anchor
the pattern, so the regex accepts a string exactly when the entire string is
in the concatenation of the factors `/fi` — the empty pattern list (`^$`)
accepts only the empty string, and a leading fragment consumes a `/`
followed by a piece in its sub-language. -/
def routeMatches : List SegPattern → List Char → Bool
  | [], l => l.isEmpty
  | seg :: rest, l =>
    match l with
    | [] => false
    | c :: l2 =>
      c = '/' && (List.range (l2.length + 1)).any (fun i =>
        segMatches seg (l2.take i) && routeMatches rest (l2.drop i))

example : parse "/some/path".data = [.literal "some".data, .literal "path".data] := by decide
example : parse "/some/\x7b:uint\x7d".data = [.literal "some".data, .uint] := by decide
example : parse "/some/\x7b\x7d".data = [.literal "some".data, .string] := by decide
example : parse "/some/\x7b:slug\x7d".data = [.literal "some".data, .any] := by decide
example : parse "foo/bar".data = [.literal "bar".data] := by decide
example : routeMatches (parse "/some/\x7b:uint\x7d".data) "/some/42".data = true := by decide
example : routeMatches (parse "/some/\x7b:uint\x7d".data) "/some/-42".data = false := by decide
example : routeMatches (parse "/some/\x7b:int\x7d".data) "/some/-42".data = true := by decide
example : routeMatches (parse "/some/\x7b:uuid\x7d".data)
    "/some/00000000-0000-0000-0000-000000000000".data = true := by decide
example : routeMatches (parse "/some/path".data) "/some/path".data = true := by decide
example : routeMatches (parse "/some/path".data) "/some/path/".data = false := by decide
example : routeMatches (parse "/soap".data) "/soap/x".data = false := by decide

/-! ### Routes, builder and router (src/router/route.rs, build.rs, mod.rs) -/

/-- A registered route: declared path, method token, handler, and the
pattern compiled from the path at construction time (`Route::new`). -/
structure Route (M H : Type) where
  path : List Char
  method : M
  handler : H
  pattern : List SegPattern
deriving DecidableEq

/-- Models `Route::new`: stores the path and compiles it once via `parse`. -/
def Route.new (path : List Char) (method : M) (handler : H) : Route M H :=
  { path := path, method := method, handler := handler, pattern := parse path }

/-- The builder: an insertion-ordered route list plus an optional default
handler (`Build`, src/router/build.rs). -/
structure Build (M H : Type) where
  routes : List (Route M H)
  default : Option H

/-- Models `Build::default()`: no routes, no default handler. -/
def Build.empty : Build M H := { routes := [], default := none }

/-- Models `Build::add`: appends the route to the ordered list. -/
def Build.add (b : Build M H) (route : Route M H) : Build M H :=
  { b with routes := b.routes ++ [route] }

/-- Models `Build::with_default`: sets or replaces the default handler. -/
def Build.with_default (b : Build M H) (h : H) : Build M H :=
  { b with default := some h }

/-- The router: the route list captured from the builder, the compiled
set-matcher (the same patterns, in the same order), and the optional
default handler (`Router`, src/router/mod.rs). -/
structure Router (M H : Type) where
  routes : List (Route M H)
  set : List (List SegPattern)
  default : Option H

/-- Models the success path of `Build::finish`: `RegexSet::new` compiles the
routes' pattern strings in iteration order, so the set holds the same
patterns at the same indices as the route list.  The `.unwrap()` in `finish`
panics when `RegexSet::new` returns an error; that failing path is modelled
by `Build.finishOn` below. -/
def Build.finish (b : Build M H) : Router M H :=
  { routes := b.routes, set := b.routes.map (fun r => r.pattern), default := b.default }

/-- Outcome of a computation that may panic instead of returning. -/
inductive PanicOr (α : Type) : Type
  | panic
  | value (v : α)
deriving DecidableEq

/-- Models `Build::finish` abstracted over the outcome of the
`RegexSet::new` call it makes: the code is
`RegexSet::new(...).unwrap()`, so an `Err` from the set compiler becomes a
panic, and an `Ok` set is stored in the router unchanged. -/
def Build.finishOn (b : Build M H)
    (setOutcome : Except String (List (List SegPattern))) : PanicOr (Router M H) :=
  match setOutcome with
  | .error _ => .panic
  | .ok set => .value { routes := b.routes, set := set, default := b.default }

/-- Models `m.unwrap()` mapped over the capture groups of a match: if any
group is absent the call panics, otherwise all group texts are collected in
order. -/
def unwrapAll : List (Option α) → PanicOr (List α)
  | [] => .value []
  | none :: _ => .panic
  | some a :: rest =>
    match unwrapAll rest with
    | .panic => .panic
    | .value l => .value (a :: l)

/-- Models `route.pattern.captures(path)` followed by
`caps.iter().skip(1)`: `none` when the anchored pattern does not match the
path; on a match, the list of the pattern's capture groups in left-to-right
order, each group's captured text wrapped in an inner `some`
(`Captures::iter` yields one `Option<Match>` per group).  Every group the
compiler emits wraps a whole placeholder fragment, and each fragment is a
mandatory factor of the anchored concatenation (never under `?`, `*` or an
alternation), so in a successful match every group participates; and since
every fragment's sub-language excludes `/`, the matched decomposition of
the path is its own split on `/`, making group `i`'s text the path piece
aligned with the `i`-th placeholder. -/
def matchGroups (segs : List SegPattern) (path : List Char) :
    Option (List (Option (List Char))) :=
  if routeMatches segs path then
    some ((((splitOnChar '/' path).drop 1).zip segs).filterMap
      (fun pr => if pr.2.isCapture then some (some pr.1) else none))
  else none

/-- The capture values `lookup` returns for a matched route: the path
pieces aligned with the pattern's placeholder segments, in order. -/
def capturedParts (segs : List SegPattern) (path : List Char) : List (List Char) :=
  (((splitOnChar '/' path).drop 1).zip segs).filterMap
    (fun pr => if pr.2.isCapture then some pr.1 else none)

/-- The tail of the `lookup` pipeline: `.next()` on the lazy iterator
followed by `.or_else(...)` over the default handler.  Given the first
surviving `(handler, groups)` pair, unwrap every capture group (the
`m.unwrap()` calls, which panic on an absent group) and return the pair;
given none, return the default handler with an empty capture list, or
`none` when no default is set. -/
def finishLookup (d : Option H) (hd : Option (H × List (Option (List Char)))) :
    PanicOr (Option (H × List (List Char))) :=
  match hd with
  | some (h, gs) =>
    match unwrapAll gs with
    | .panic => .panic
    | .value caps => .value (some (h, caps))
  | none => .value (d.map (fun h => (h, [])))

/-- Models `Router::lookup` (src/router/mod.rs): ask the set-matcher for the
indices of the patterns matching the path (`SetMatches::iter` yields them in
ascending index order), fetch the corresponding routes (`routes.get(i)`),
keep those whose method equals the requested one, re-run capture extraction
on each survivor's own pattern, take the first hit, and fall back to the
default handler (with no captures) if there is none.  The `unwrap` applied
to each capture group is modelled by `unwrapAll` inside `finishLookup`, so
a non-participating group would surface as `PanicOr.panic`. -/
def Router.lookup [DecidableEq M] (r : Router M H) (method : M) (path : List Char) :
    PanicOr (Option (H × List (List Char))) :=
  let setIdx := (List.range r.set.length).filter (fun i =>
    ((r.set.get? i).map (fun pat => routeMatches pat path)).getD false)
  let fetched := setIdx.filterMap (fun i => r.routes.get? i)
  let methodOk := fetched.filter (fun route => method = route.method)
  let withGroups := methodOk.filterMap (fun route =>
    (matchGroups route.pattern path).map (fun gs => (route.handler, gs)))
  finishLookup r.default withGroups.head?

/-- Models `Router::set_default`: replaces the default handler in place. -/
def Router.set_default (r : Router M H) (h : H) : Router M H :=
  { r with default := some h }

section Examples

/-- The route table of the crate's `test_basic_routes` test, with `Nat` for
both the method and the handler. -/
def testBuild : Build Nat Nat :=
  ((((Build.empty.add (Route.new "/some/path".data 0 1)).add
    (Route.new "/some/\x7b:uint\x7d".data 0 2)).add
    (Route.new "/some/\x7b:int\x7d".data 0 3)).add
    (Route.new "/some/\x7b:uuid\x7d".data 0 4)).add
    (Route.new "/some/\x7b:string\x7d".data 0 5)

/-- Two overlapping routes: `/some/\x7b:uint\x7d` registered before
`/some/\x7b:string\x7d`; both match the path `/some/42`. -/
def uintStringBuild : Build Nat Nat :=
  (Build.empty.add (Route.new "/some/\x7b:uint\x7d".data 0 1)).add
    (Route.new "/some/\x7b:string\x7d".data 0 2)

/-- One route plus a default handler. -/
def defaultedBuild : Build Nat Nat :=
  (Build.empty.add (Route.new "/a".data 0 7)).with_default 9

example : testBuild.finish.lookup 0 "/some/path".data = .value (some (1, [])) := by decide
example : testBuild.finish.lookup 0 "/some/4".data = .value (some (2, ["4".data])) := by decide
example : testBuild.finish.lookup 0 "/some/-4".data = .value (some (3, ["-4".data])) := by decide
example : testBuild.finish.lookup 0 "/some/00000000-0000-0000-0000-000000000000".data
    = .value (some (4, ["00000000-0000-0000-0000-000000000000".data])) := by decide
example : testBuild.finish.lookup 0 "/some/other".data = .value (some (5, ["other".data])) := by decide
example : testBuild.finish.lookup 0 "/soap".data = .value none := by decide
example : testBuild.finish.lookup 1 "/some/path".data = .value none := by decide

end Examples

/-! ### Helper lemmas -/

theorem splitOnChar_ne_nil (sep : Char) (l : List Char) : splitOnChar sep l ≠ [] := by
  cases l with
  | nil => simp [splitOnChar]
  | cons c cs =>
    simp only [splitOnChar]
    split
    · simp
    · rcases h : splitOnChar sep cs with _ | ⟨p, ps⟩ <;> simp

theorem splitOnChar_append (sep : Char) (a b : List Char) (h : sep ∉ a) :
    splitOnChar sep (a ++ sep :: b) = a :: splitOnChar sep b := by
  induction a with
  | nil => simp [splitOnChar]
  | cons c cs ih =>
    have hc : c ≠ sep := fun hc => h (hc ▸ List.mem_cons_self c cs)
    have hcs : sep ∉ cs := fun hm => h (List.mem_cons_of_mem c hm)
    simp only [List.cons_append, splitOnChar, if_neg hc, List.append_eq, ih hcs]

theorem splitOnChar_of_not_mem (sep : Char) (a : List Char) (h : sep ∉ a) :
    splitOnChar sep a = [a] := by
  induction a with
  | nil => rfl
  | cons c cs ih =>
    have hc : c ≠ sep := fun hc => h (hc ▸ List.mem_cons_self c cs)
    have hcs : sep ∉ cs := fun hm => h (List.mem_cons_of_mem c hm)
    simp only [splitOnChar, if_neg hc, ih hcs]

theorem routeMatches_nil (l : List Char) : routeMatches [] l = l.isEmpty := rfl

theorem routeMatches_cons (seg : SegPattern) (rest : List SegPattern) (l : List Char) :
    routeMatches (seg :: rest) l = true ↔
      ∃ a b, l = '/' :: (a ++ b) ∧ segMatches seg a = true ∧ routeMatches rest b = true := by
  cases l with
  | nil =>
    constructor
    · intro h; cases h
    · rintro ⟨a, b, h, -, -⟩; cases h
  | cons c l2 =>
    show (decide (c = '/') && _) = true ↔ _
    rw [Bool.and_eq_true, decide_eq_true_eq, List.any_eq_true]
    constructor
    · rintro ⟨hc, i, hi, hm⟩
      rw [Bool.and_eq_true] at hm
      exact ⟨l2.take i, l2.drop i, by rw [hc, List.take_append_drop], hm.1, hm.2⟩
    · rintro ⟨a, b, heq, hseg, hrest⟩
      cases heq
      refine ⟨rfl, a.length, ?_, ?_⟩
      · rw [List.mem_range, List.length_append]; omega
      · rw [Bool.and_eq_true, List.take_left, List.drop_left]
        exact ⟨hseg, hrest⟩

theorem filterMap_eq_map_of {α β : Type} (l : List α) (F : α → Option β) (G : α → β)
    (h : ∀ x ∈ l, F x = some (G x)) : l.filterMap F = l.map G := by
  induction l with
  | nil => rfl
  | cons a t ih =>
    rw [List.filterMap_cons, h a (List.mem_cons_self a t), List.map_cons,
      ih (fun x hx => h x (List.mem_cons_of_mem a hx))]

theorem unwrapAll_map_some {α : Type} (l : List α) : unwrapAll (l.map some) = .value l := by
  induction l with
  | nil => rfl
  | cons a t ih => rw [List.map_cons]; show (match unwrapAll (t.map some) with
      | .panic => PanicOr.panic
      | .value l2 => .value (a :: l2)) = _
                   rw [ih]

theorem head_filter_eq_find (q : α → Bool) (l : List α) :
    (l.filter q).head? = l.find? q := by
  induction l with
  | nil => rfl
  | cons a t ih => cases hq : q a <;> simp [List.filter_cons, List.find?_cons, hq, ih]

theorem find_of_least {α : Type} (q : α → Bool) (l : List α) :
    ∀ (i : Nat) (x : α), l.get? i = some x → q x = true →
      (∀ j, j < i → ∀ y, l.get? j = some y → q y = false) → l.find? q = some x := by
  induction l with
  | nil => intro i x h; cases h
  | cons a t ih =>
    intro i x hget hx hleast
    cases i with
    | zero =>
      cases hget
      simp [List.find?_cons, hx]
    | succ n =>
      have ha : q a = false := hleast 0 (Nat.succ_pos n) a rfl
      simp only [List.find?_cons, ha]
      exact ih n x hget hx (fun j hj y hy => hleast (j + 1) (by omega) y hy)

theorem range_filter_filterMap {α : Type} (l : List α) (q : α → Bool) :
    (((List.range l.length).filter (fun i =>
        ((l.get? i).map q).getD false)).filterMap (fun i => l.get? i)) = l.filter q := by
  induction l with
  | nil => rfl
  | cons a t ih =>
    have hcomp : (fun i => (((a :: t).get? i).map q).getD false) ∘ Nat.succ =
        (fun i => ((t.get? i).map q).getD false) := rfl
    have hmap : ((List.range t.length).map Nat.succ).filter
        (fun i => (((a :: t).get? i).map q).getD false) =
        ((List.range t.length).filter
          (fun i => ((t.get? i).map q).getD false)).map Nat.succ := by
      rw [List.filter_map, hcomp]
    have hcomp2 : (fun i => (a :: t).get? i) ∘ Nat.succ = (fun i => t.get? i) := rfl
    rw [List.length_cons, List.range_succ_eq_map, List.filter_cons]
    cases hq : q a with
    | true =>
      rw [if_pos (by simp [hq]), List.filterMap_cons, hmap, List.filterMap_map, hcomp2, ih]
      simp [List.filter_cons, hq]
    | false =>
      rw [if_neg (by simp [hq]), hmap, List.filterMap_map, hcomp2, ih]
      simp [List.filter_cons, hq]

theorem matchGroups_of_match (segs : List SegPattern) (p : List Char)
    (h : routeMatches segs p = true) :
    matchGroups segs p = some ((capturedParts segs p).map some) := by
  rw [matchGroups, if_pos h, capturedParts]
  have hfun : (fun pr : List Char × SegPattern =>
      if pr.2.isCapture then some (some pr.1) else none) =
      (fun pr : List Char × SegPattern =>
        Option.map some (if pr.2.isCapture then some pr.1 else none)) := by
    funext pr
    by_cases hc : pr.2.isCapture <;> simp [hc]
  rw [hfun, ← List.map_filterMap]

theorem lookup_finish_eq {M H : Type} [DecidableEq M] (b : Build M H) (m : M) (p : List Char) :
    (b.finish).lookup m p =
      match (b.routes.filter (fun route =>
          routeMatches route.pattern p && decide (m = route.method))).head? with
      | some route => .value (some (route.handler, capturedParts route.pattern p))
      | none => .value (b.default.map (fun h => (h, []))) := by
  simp only [Router.lookup, Build.finish]
  have hpred : (fun i => (((b.routes.map (fun r => r.pattern)).get? i).map
      (fun pat => routeMatches pat p)).getD false) =
      (fun i => ((b.routes.get? i).map
        (fun route => routeMatches route.pattern p)).getD false) := by
    funext i
    rw [List.get?_map]
    cases b.routes.get? i <;> rfl
  rw [List.length_map, hpred,
    range_filter_filterMap b.routes (fun route => routeMatches route.pattern p),
    List.filter_filter]
  have hcomm : (fun a : Route M H => decide (m = a.method) && routeMatches a.pattern p) =
      (fun route : Route M H =>
        routeMatches route.pattern p && decide (m = route.method)) := by
    funext a
    rw [Bool.and_comm]
  rw [hcomm]
  have hall : ∀ route ∈ b.routes.filter (fun route =>
      routeMatches route.pattern p && decide (m = route.method)),
      (matchGroups route.pattern p).map (fun gs => (route.handler, gs)) =
        some (route.handler, (capturedParts route.pattern p).map some) := by
    intro route hmem
    have hq := (List.mem_filter.mp hmem).2
    rw [Bool.and_eq_true] at hq
    rw [matchGroups_of_match route.pattern p hq.1]
    rfl
  rw [filterMap_eq_map_of _ _
    (fun route => (route.handler, (capturedParts route.pattern p).map some)) hall,
    List.head?_map]
  cases hh : (b.routes.filter (fun route =>
      routeMatches route.pattern p && decide (m = route.method))).head? with
  | none => rfl
  | some route => simp [finishLookup, unwrapAll_map_some]


theorem routeMatches_iff_parts (segs : List SegPattern) (path : List Char) :
    routeMatches segs path = true ↔
      ∃ parts : List (List Char), parts.length = segs.length ∧
        path = (parts.map (fun part => '/' :: part)).flatten ∧
        ∀ pr ∈ segs.zip parts, segMatches pr.1 pr.2 = true := by
  induction segs generalizing path with
  | nil =>
    rw [routeMatches_nil, List.isEmpty_iff]
    constructor
    · intro h
      exact ⟨[], rfl, by simp [h], by simp⟩
    · rintro ⟨parts, hlen, hpath, -⟩
      rw [List.length_eq_zero.mp hlen] at hpath
      simpa using hpath
  | cons seg rest ih =>
    rw [routeMatches_cons]
    constructor
    · rintro ⟨a, b, rfl, hseg, hrest⟩
      obtain ⟨parts, hlen, rfl, hall⟩ := (ih b).mp hrest
      refine ⟨a :: parts, by simp [hlen], by simp, ?_⟩
      rintro pr hpr
      rcases List.mem_cons.mp hpr with h | h
      · rw [h]; exact hseg
      · exact hall pr h
    · rintro ⟨parts, hlen, rfl, hall⟩
      cases parts with
      | nil => cases hlen
      | cons a parts2 =>
        rw [List.length_cons, List.length_cons, Nat.add_right_cancel_iff] at hlen
        refine ⟨a, (parts2.map (fun part => '/' :: part)).flatten, by simp, ?_, ?_⟩
        · exact hall (seg, a) (List.mem_cons_self _ _)
        · exact (ih _).mpr ⟨parts2, hlen, rfl, fun pr hpr =>
            hall pr (List.mem_cons_of_mem _ hpr)⟩


theorem hexTake_eq_some (n : Nat) : ∀ (l r : List Char),
    hexTake n l = some r ↔
      ∃ g, g.length = n ∧ (∀ c ∈ g, isHexChar c = true) ∧ l = g ++ r := by
  induction n with
  | zero =>
    intro l r
    constructor
    · intro h
      cases h
      exact ⟨[], rfl, by simp, rfl⟩
    · rintro ⟨g, hlen, -, rfl⟩
      rw [List.length_eq_zero.mp hlen]
      rfl
  | succ n ih =>
    intro l r
    cases l with
    | nil =>
      constructor
      · intro h; cases h
      · rintro ⟨g, hlen, -, hl⟩
        cases g with
        | nil => cases hlen
        | cons d g2 => cases hl
    | cons c cs =>
      show (if isHexChar c then hexTake n cs else none) = some r ↔ _
      by_cases hc : isHexChar c = true
      · rw [if_pos hc, ih cs r]
        constructor
        · rintro ⟨g, hlen, hhex, rfl⟩
          refine ⟨c :: g, by simp [hlen], ?_, by simp⟩
          intro d hd
          rcases List.mem_cons.mp hd with h | h
          · rw [h]; exact hc
          · exact hhex d h
        · rintro ⟨g, hlen, hhex, hl⟩
          cases g with
          | nil => cases hlen
          | cons d g2 =>
            injection hl with h1 h2
            exact ⟨g2, by simpa using hlen,
              fun e he => hhex e (List.mem_cons_of_mem d he), h2⟩
      · rw [if_neg hc]
        constructor
        · intro h; cases h
        · rintro ⟨g, hlen, hhex, hl⟩
          cases g with
          | nil => cases hlen
          | cons d g2 =>
            injection hl with h1 h2
            exact absurd (h1 ▸ hhex d (List.mem_cons_self d g2)) hc

theorem dashHex_eq_some (n : Nat) (l r : List Char) :
    dashHex n l = some r ↔
      ∃ g, g.length = n ∧ (∀ c ∈ g, isHexChar c = true) ∧ l = '-' :: (g ++ r) := by
  cases l with
  | nil =>
    constructor
    · intro h; cases h
    · rintro ⟨g, -, -, hl⟩; cases hl
  | cons c cs =>
    show (if c = '-' then hexTake n cs else none) = some r ↔ _
    by_cases hc : c = '-'
    · subst hc
      rw [if_pos rfl, hexTake_eq_some n cs r]
      constructor
      · rintro ⟨g, hlen, hhex, rfl⟩
        exact ⟨g, hlen, hhex, rfl⟩
      · rintro ⟨g, hlen, hhex, hl⟩
        injection hl with h1 h2
        exact ⟨g, hlen, hhex, h2⟩
    · rw [if_neg hc]
      constructor
      · intro h; cases h
      · rintro ⟨g, -, -, hl⟩
        injection hl with h1 h2
        exact absurd h1 hc

theorem uuidMatch_iff (l : List Char) :
    uuidMatch l = true ↔
      ∃ g1 g2 g3 g4 g5 : List Char,
        g1.length = 8 ∧ g2.length = 4 ∧ g3.length = 4 ∧ g4.length = 4 ∧
        g5.length = 12 ∧
        (∀ c ∈ g1 ++ g2 ++ g3 ++ g4 ++ g5, isHexChar c = true) ∧
        l = g1 ++ '-' :: (g2 ++ '-' :: (g3 ++ '-' :: (g4 ++ '-' :: g5))) := by
  simp only [uuidMatch, decide_eq_true_eq, Option.bind_eq_some]
  constructor
  · rintro ⟨r4, ⟨r3, ⟨r2, ⟨r1, h1, h2⟩, h3⟩, h4⟩, h5⟩
    obtain ⟨g1, e1, x1, rfl⟩ := (hexTake_eq_some 8 l r1).mp h1
    obtain ⟨g2, e2, x2, rfl⟩ := (dashHex_eq_some 4 r1 r2).mp h2
    obtain ⟨g3, e3, x3, rfl⟩ := (dashHex_eq_some 4 r2 r3).mp h3
    obtain ⟨g4, e4, x4, rfl⟩ := (dashHex_eq_some 4 r3 r4).mp h4
    obtain ⟨g5, e5, x5, hr4⟩ := (dashHex_eq_some 12 r4 []).mp h5
    subst hr4
    refine ⟨g1, g2, g3, g4, g5, e1, e2, e3, e4, e5, ?_, by simp⟩
    intro c hc
    simp only [List.mem_append] at hc
    rcases hc with ((((hc | hc) | hc) | hc) | hc)
    · exact x1 c hc
    · exact x2 c hc
    · exact x3 c hc
    · exact x4 c hc
    · exact x5 c hc
  · rintro ⟨g1, g2, g3, g4, g5, e1, e2, e3, e4, e5, hhex, rfl⟩
    have m1 : ∀ c ∈ g1, isHexChar c = true := fun c hc => hhex c (by simp [hc])
    have m2 : ∀ c ∈ g2, isHexChar c = true := fun c hc => hhex c (by simp [hc])
    have m3 : ∀ c ∈ g3, isHexChar c = true := fun c hc => hhex c (by simp [hc])
    have m4 : ∀ c ∈ g4, isHexChar c = true := fun c hc => hhex c (by simp [hc])
    have m5 : ∀ c ∈ g5, isHexChar c = true := fun c hc => hhex c (by simp [hc])
    exact ⟨'-' :: g5,
      ⟨'-' :: (g4 ++ '-' :: g5),
        ⟨'-' :: (g3 ++ '-' :: (g4 ++ '-' :: g5)),
          ⟨'-' :: (g2 ++ '-' :: (g3 ++ '-' :: (g4 ++ '-' :: g5))),
            (hexTake_eq_some ..).mpr ⟨g1, e1, m1, rfl⟩,
            (dashHex_eq_some ..).mpr ⟨g2, e2, m2, rfl⟩⟩,
          (dashHex_eq_some ..).mpr ⟨g3, e3, m3, rfl⟩⟩,
        (dashHex_eq_some ..).mpr ⟨g4, e4, m4, rfl⟩⟩,
      (dashHex_eq_some ..).mpr ⟨g5, e5, m5, by simp⟩⟩

theorem segMatches_literal_iff (s l : List Char) :
    segMatches (.literal s) l = true ↔ l = s := by
  simp only [segMatches, decide_eq_true_eq]

theorem segMatches_string_iff (l : List Char) :
    segMatches .string l = true ↔ l ≠ [] ∧ ∀ c ∈ l, c ≠ '/' := by
  show (!l.isEmpty && l.all (fun c => c != '/')) = true ↔ _
  cases l <;> simp

theorem segMatches_uint_iff (l : List Char) :
    segMatches .uint l = true ↔ l ≠ [] ∧ ∀ c ∈ l, c.isDigit = true := by
  show (!l.isEmpty && l.all Char.isDigit) = true ↔ _
  cases l <;> simp [List.all_eq_true]

theorem segMatches_any_iff (l : List Char) :
    segMatches .any l = true ↔ ∀ c ∈ l, c ≠ '/' := by
  show (l.all (fun c => c != '/')) = true ↔ _
  simp

theorem segMatches_int_iff (l : List Char) :
    segMatches .int l = true ↔
      ∃ s d : List Char, (s = [] ∨ s = ['-'] ∨ s = ['+']) ∧ d ≠ [] ∧
        (∀ c ∈ d, c.isDigit = true) ∧ l = s ++ d := by
  cases l with
  | nil =>
    constructor
    · intro h; exact absurd h (by decide)
    · rintro ⟨s, d, hs, hd, -, hl⟩
      rcases hs with rfl | rfl | rfl
      · exact (hd hl.symm).elim
      · exact (List.noConfusion hl)
      · exact (List.noConfusion hl)
  | cons c cs =>
    show (if c = '-' ∨ c = '+' then (!cs.isEmpty && cs.all Char.isDigit)
        else (c.isDigit && cs.all Char.isDigit)) = true ↔ _
    by_cases hc : c = '-' ∨ c = '+'
    · rw [if_pos hc]
      have hlhs : (!cs.isEmpty && cs.all Char.isDigit) = true ↔
          cs ≠ [] ∧ ∀ e ∈ cs, e.isDigit = true := by
        cases cs <;> simp [List.all_eq_true]
      rw [hlhs]
      constructor
      · rintro ⟨hne, hdig⟩
        refine ⟨[c], cs, ?_, hne, hdig, rfl⟩
        rcases hc with rfl | rfl
        · exact Or.inr (Or.inl rfl)
        · exact Or.inr (Or.inr rfl)
      · rintro ⟨s, d, hs, hd, hdig, hl⟩
        rcases hs with rfl | rfl | rfl
        · rw [List.nil_append] at hl
          have : c.isDigit = true := hdig c (hl ▸ List.mem_cons_self c cs)
          rcases hc with rfl | rfl <;> exact absurd this (by decide)
        · injection hl with h1 h2
          subst h2
          exact ⟨hd, hdig⟩
        · injection hl with h1 h2
          subst h2
          exact ⟨hd, hdig⟩
    · rw [if_neg hc]
      have hlhs : (c.isDigit && cs.all Char.isDigit) = true ↔
          c.isDigit = true ∧ ∀ e ∈ cs, e.isDigit = true := by
        simp [List.all_eq_true]
      rw [hlhs]
      constructor
      · rintro ⟨hcd, hdig⟩
        refine ⟨[], c :: cs, Or.inl rfl, by simp, ?_, rfl⟩
        intro e he
        rcases List.mem_cons.mp he with h | h
        · rw [h]; exact hcd
        · exact hdig e h
      · rintro ⟨s, d, hs, hd, hdig, hl⟩
        rcases hs with rfl | rfl | rfl
        · rw [List.nil_append] at hl
          subst hl
          exact ⟨hdig c (List.mem_cons_self c cs),
            fun e he => hdig e (List.mem_cons_of_mem c he)⟩
        · injection hl with h1 h2
          exact absurd (Or.inl h1) hc
        · injection hl with h1 h2
          exact absurd (Or.inr h1) hc


theorem unwrapAll_of_all_some {α : Type} (l : List (Option α))
    (h : ∀ g ∈ l, ∃ y, g = some y) : ∃ caps, unwrapAll l = .value caps := by
  induction l with
  | nil => exact ⟨[], rfl⟩
  | cons g t ih =>
    obtain ⟨y, rfl⟩ := h g (List.mem_cons_self g t)
    obtain ⟨caps, hc⟩ := ih (fun g2 hg2 => h g2 (List.mem_cons_of_mem _ hg2))
    exact ⟨y :: caps, by simp only [unwrapAll, hc]⟩

theorem placeholderKind_of_kind (kind : List Char) (h : validKindName kind = true) :
    placeholderKind ('\x7b' :: ':' :: (kind ++ ['\x7d'])) = some (some kind) := by
  have hne : ('\x7b' :: ':' :: (kind ++ ['\x7d'])) ≠ ['\x7b', '\x7d'] := by
    intro heq
    injection heq with h1 h2
    injection h2 with h3 h4
    exact absurd h3 (by decide)
  rw [placeholderKind, if_neg hne]
  rw [if_pos ⟨rfl, rfl, List.getLast?_concat kind, by
    rw [List.dropLast_concat]; exact h⟩, List.dropLast_concat]


/-! ### Claim theorems -/

/-- C5: the four typed placeholder kinds compile to exactly these segment
languages — `\x7b\x7d` and `\x7b:string\x7d` match one or more non-slash
characters; `\x7b:int\x7d` matches an optional sign followed by one or more
digits (signed and unsigned accepted); `\x7b:uint\x7d` matches one or more
digits with no sign; `\x7b:uuid\x7d` matches only the canonical 8-4-4-4-12
hyphen-separated hexadecimal grouping. -/
theorem typed_kind_semantics :
    (compileSegment "\x7b\x7d".data = SegPattern.string ∧
     compileSegment "\x7b:string\x7d".data = SegPattern.string ∧
     compileSegment "\x7b:int\x7d".data = SegPattern.int ∧
     compileSegment "\x7b:uint\x7d".data = SegPattern.uint ∧
     compileSegment "\x7b:uuid\x7d".data = SegPattern.uuid) ∧
    (∀ l : List Char, segMatches SegPattern.string l = true ↔
      l ≠ [] ∧ ∀ c ∈ l, c ≠ '/') ∧
    (∀ l : List Char, segMatches SegPattern.int l = true ↔
      ∃ s d : List Char, (s = [] ∨ s = ['-'] ∨ s = ['+']) ∧ d ≠ [] ∧
        (∀ c ∈ d, c.isDigit = true) ∧ l = s ++ d) ∧
    (∀ l : List Char, segMatches SegPattern.uint l = true ↔
      l ≠ [] ∧ ∀ c ∈ l, c.isDigit = true) ∧
    (∀ l : List Char, segMatches SegPattern.uuid l = true ↔
      ∃ g1 g2 g3 g4 g5 : List Char,
        g1.length = 8 ∧ g2.length = 4 ∧ g3.length = 4 ∧ g4.length = 4 ∧
        g5.length = 12 ∧
        (∀ c ∈ g1 ++ g2 ++ g3 ++ g4 ++ g5, isHexChar c = true) ∧
        l = g1 ++ '-' :: (g2 ++ '-' :: (g3 ++ '-' :: (g4 ++ '-' :: g5)))) :=
  ⟨⟨by decide, by decide, by decide, by decide, by decide⟩,
   segMatches_string_iff, segMatches_int_iff, segMatches_uint_iff,
   fun l => uuidMatch_iff l⟩

/-- C6: a placeholder segment `\x7b:kind\x7d` whose kind name is valid but not
one of string/int/uint/uuid does not fail compilation — it compiles to the
unrestricted, possibly-empty non-slash capture `([^/]*)`. -/
theorem unknown_kind_degrades_to_any (kind : List Char)
    (hvalid : validKindName kind = true)
    (hs : kind ≠ "string".data) (hi : kind ≠ "int".data)
    (hu : kind ≠ "uint".data) (hd : kind ≠ "uuid".data) :
    compileSegment ('\x7b' :: ':' :: (kind ++ ['\x7d'])) = SegPattern.any ∧
    ∀ l : List Char, (segMatches SegPattern.any l = true ↔ ∀ c ∈ l, c ≠ '/') := by
  constructor
  · rw [compileSegment, placeholderKind_of_kind kind hvalid]
    simp [MATCH_KINDS, hs, hi, hu, hd]
  · exact segMatches_any_iff

/-- C6 witness: the unknown kind `slug` compiles to the permissive
fallback. -/
theorem unknown_kind_degrades_to_any_witness :
    compileSegment "\x7b:slug\x7d".data = SegPattern.any :=
  (unknown_kind_degrades_to_any "slug".data (by decide) (by decide) (by decide)
    (by decide) (by decide)).1

/-- C7: a template segment that is not a placeholder is escaped and compiles
to a fragment that matches exactly the literal segment text — and nothing
else. -/
theorem literal_segment_matches_exactly (part : List Char)
    (h : placeholderKind part = none) :
    compileSegment part = SegPattern.literal part ∧
    ∀ l : List Char, (segMatches (SegPattern.literal part) l = true ↔ l = part) := by
  constructor
  · rw [compileSegment, h]
  · exact segMatches_literal_iff part

/-- C7 witness: the literal segment `a.b+c`, full of metacharacters, matches
itself and does not match the text `aXbXc` that an unescaped pattern
interpretation would accept. -/
theorem literal_segment_matches_exactly_witness :
    compileSegment "a.b+c".data = SegPattern.literal "a.b+c".data ∧
    (segMatches (SegPattern.literal "a.b+c".data) "a.b+c".data = true ↔
      "a.b+c".data = "a.b+c".data) ∧
    (segMatches (SegPattern.literal "a.b+c".data) "aXbbc".data = true ↔
      "aXbbc".data = "a.b+c".data) :=
  ⟨(literal_segment_matches_exactly "a.b+c".data (by decide)).1,
   (literal_segment_matches_exactly "a.b+c".data (by decide)).2 "a.b+c".data,
   (literal_segment_matches_exactly "a.b+c".data (by decide)).2 "aXbbc".data⟩

/-- C8: the compiled pattern is the `/`-join of the compiled segments,
anchored with `^` and `$`, so it accepts an input path exactly when the
whole path decomposes as `/part1/part2/.../partn` with each part in the
corresponding segment's language — no proper prefix, suffix or other
partial-path match is ever accepted. -/
theorem compiled_pattern_full_anchoring (t p : List Char) :
    routeMatches (parse t) p = true ↔
      ∃ parts : List (List Char), parts.length = (parse t).length ∧
        p = (parts.map (fun part => '/' :: part)).flatten ∧
        ∀ pr ∈ (parse t).zip parts, segMatches pr.1 pr.2 = true :=
  routeMatches_iff_parts (parse t) p

/-- C9: after normalization, the first `/`-piece of the template is always
discarded: a normalized template `a ++ '/' :: b` whose head piece `a`
contains no slash compiles exactly like the normalized template
`'/' :: b` (so compiling `foo/bar` gives the pattern of `/bar`), a
normalized template with no slash at all compiles to the empty pattern, and
for a template beginning with `/` only the empty leading piece is
dropped. -/
theorem leading_segment_discarded :
    (∀ t t2 a b : List Char, '/' ∉ a →
      normalize_url t = a ++ '/' :: b → normalize_url t2 = '/' :: b →
      parse t = parse t2) ∧
    (∀ t a : List Char, '/' ∉ a → normalize_url t = a → parse t = []) ∧
    parse "foo/bar".data = parse "/bar".data := by
  refine ⟨?_, ?_, by decide⟩
  · intro t t2 a b ha h1 h2
    rw [parse, parse, h1, h2, splitOnChar_append '/' a b ha]
    simp [splitOnChar]
  · intro t a ha h
    rw [parse, h, splitOnChar_of_not_mem '/' a ha]
    rfl

/-- C9 witness: `foo/bar` and `/bar` compile to the same pattern via the
general statement. -/
theorem leading_segment_discarded_witness :
    parse "foo/bar".data = parse "/bar".data :=
  leading_segment_discarded.1 "foo/bar".data "/bar".data "foo".data "bar".data
    (by decide) (by decide) (by decide)


theorem mem_of_matchGroups (segs : List SegPattern) (p : List Char)
    (gs : List (Option (List Char))) (hm : matchGroups segs p = some gs) :
    ∀ g ∈ gs, ∃ y, g = some y := by
  rw [matchGroups] at hm
  split at hm
  · injection hm with hm2
    subst hm2
    intro g hg
    obtain ⟨pr2, hpr2, hif⟩ := List.mem_filterMap.mp hg
    by_cases hc : pr2.2.isCapture
    · rw [if_pos hc] at hif
      injection hif with h
      exact ⟨pr2.1, h.symm⟩
    · rw [if_neg hc] at hif
      cases hif
  · cases hm

theorem finishLookup_value {H : Type} (d : Option H)
    (hd : Option (H × List (Option (List Char))))
    (h : ∀ pr, hd = some pr → ∀ g ∈ pr.2, ∃ y, g = some y) :
    ∃ o, finishLookup d hd = .value o := by
  cases hd with
  | none => exact ⟨d.map (fun h2 => (h2, [])), rfl⟩
  | some pr =>
    obtain ⟨h1, gs⟩ := pr
    obtain ⟨caps, hc⟩ := unwrapAll_of_all_some gs (h (h1, gs) rfl)
    exact ⟨some (h1, caps), by simp only [finishLookup, hc]⟩

/-- C3: for every router, method and path, `lookup` returns normally — it
never reaches the panic of the per-group `unwrap`, because every capture
group of a matched pattern participates in the match. -/
theorem lookup_never_panics {M H : Type} [DecidableEq M] (r : Router M H)
    (m : M) (p : List Char) :
    ∃ o : Option (H × List (List Char)), r.lookup m p = PanicOr.value o := by
  simp only [Router.lookup]
  refine finishLookup_value _ _ ?_
  intro pr hpr
  have hmem := List.mem_of_mem_head? (Option.mem_def.mpr hpr)
  obtain ⟨route, hroute, hmap⟩ := List.mem_filterMap.mp hmem
  obtain ⟨gs, hgs, hpr2⟩ := Option.map_eq_some'.mp hmap
  subst hpr2
  exact mem_of_matchGroups route.pattern p gs hgs

/-- C1: when some route matches both the method and the path, `lookup`
returns the handler and captures of the earliest-registered matching route:
if the route at index `i` matches and no route at a smaller index does,
the result is built from that route. -/
theorem lookup_first_registered_wins {M H : Type} [DecidableEq M]
    (b : Build M H) (m : M) (p : List Char) (i : Nat) (route : Route M H)
    (hget : b.routes.get? i = some route)
    (hmatch : routeMatches route.pattern p = true)
    (hmethod : m = route.method)
    (hleast : ∀ j, j < i → ∀ rj, b.routes.get? j = some rj →
      ¬(routeMatches rj.pattern p = true ∧ m = rj.method)) :
    (b.finish).lookup m p =
      PanicOr.value (some (route.handler, capturedParts route.pattern p)) := by
  have hfind : b.routes.find? (fun rt =>
      routeMatches rt.pattern p && decide (m = rt.method)) = some route := by
    refine find_of_least _ b.routes i route hget ?_ ?_
    · rw [Bool.and_eq_true, decide_eq_true_eq]
      exact ⟨hmatch, hmethod⟩
    · intro j hj rj hrj
      rw [Bool.eq_false_iff]
      intro hq
      rw [Bool.and_eq_true, decide_eq_true_eq] at hq
      exact hleast j hj rj hrj hq
  rw [lookup_finish_eq, head_filter_eq_find, hfind]

/-- C1 witness: with `/some/\x7b:uint\x7d` registered before
`/some/\x7b:string\x7d` and both matching `/some/42`, lookup returns the
first-registered route's handler. -/
theorem lookup_first_registered_wins_witness :
    uintStringBuild.finish.lookup 0 "/some/42".data =
      PanicOr.value (some (1, ["42".data])) :=
  lookup_first_registered_wins uintStringBuild 0 "/some/42".data 0
    (Route.new "/some/\x7b:uint\x7d".data 0 1) (by decide) (by decide) rfl
    (fun j hj _ _ => absurd hj (Nat.not_lt_zero j))

/-- C4: the default handler (with an empty capture list) is returned exactly
when no registered route matches both the method and the path; when some
route matches, the result comes from a matching route; with no default
handler and no match the result is `none`. -/
theorem default_fires_exactly_on_no_match {M H : Type} [DecidableEq M]
    (b : Build M H) (m : M) (p : List Char) :
    ((∀ route ∈ b.routes, ¬(routeMatches route.pattern p = true ∧ m = route.method)) →
      (b.finish).lookup m p = PanicOr.value (b.default.map (fun h => (h, [])))) ∧
    ((∃ route ∈ b.routes, routeMatches route.pattern p = true ∧ m = route.method) →
      ∃ route ∈ b.routes, routeMatches route.pattern p = true ∧ m = route.method ∧
        (b.finish).lookup m p =
          PanicOr.value (some (route.handler, capturedParts route.pattern p))) ∧
    (b.default = none →
      (∀ route ∈ b.routes, ¬(routeMatches route.pattern p = true ∧ m = route.method)) →
      (b.finish).lookup m p = PanicOr.value none) := by
  have hA : (∀ route ∈ b.routes,
      ¬(routeMatches route.pattern p = true ∧ m = route.method)) →
      (b.finish).lookup m p = PanicOr.value (b.default.map (fun h => (h, []))) := by
    intro hnone
    have hnil : b.routes.filter (fun route =>
        routeMatches route.pattern p && decide (m = route.method)) = [] := by
      rw [List.filter_eq_nil_iff]
      intro route hr
      simp only [Bool.and_eq_true, decide_eq_true_eq]
      exact hnone route hr
    rw [lookup_finish_eq, hnil]
    rfl
  refine ⟨hA, ?_, fun hd hnone => by rw [hA hnone, hd]; rfl⟩
  intro hex
  have hsome : (b.routes.find? (fun route =>
      routeMatches route.pattern p && decide (m = route.method))).isSome := by
    rw [List.find?_isSome]
    obtain ⟨route, hr, hm2, hmeth⟩ := hex
    refine ⟨route, hr, ?_⟩
    rw [Bool.and_eq_true, decide_eq_true_eq]
    exact ⟨hm2, hmeth⟩
  obtain ⟨route, hfind⟩ := Option.isSome_iff_exists.mp hsome
  have hq := List.find?_some hfind
  rw [Bool.and_eq_true, decide_eq_true_eq] at hq
  refine ⟨route, List.mem_of_find?_eq_some hfind, hq.1, hq.2, ?_⟩
  rw [lookup_finish_eq, head_filter_eq_find, hfind]

/-- C4 witness: a route table whose only route matches the path `/a` but not
the method, with default handler 9: lookup falls back to the default with no
captures. -/
theorem default_fires_exactly_on_no_match_witness :
    defaultedBuild.finish.lookup 1 "/a".data = PanicOr.value (some (9, [])) :=
  (default_fires_exactly_on_no_match defaultedBuild 1 "/a".data).1 (by decide)

/-- C10: building a router from a builder with no routes always succeeds
(`RegexSet::new` of the empty pattern list compiles), and on the resulting
router every lookup returns the default handler with no captures when one
is set, and `none` otherwise. -/
theorem empty_build_lookup_default {M H : Type} [DecidableEq M]
    (d : Option H) (m : M) (p : List Char) :
    (Build.finish { routes := [], default := d } : Router M H).lookup m p =
      PanicOr.value (d.map (fun h => (h, []))) ∧
    Build.finishOn { routes := [], default := d } (Except.ok []) =
      PanicOr.value (Build.finish { routes := [], default := d } : Router M H) :=
  ⟨rfl, rfl⟩

/-- C2 (counterexample to the claim as stated): when the set-matcher
compilation inside `finish()` fails, the failure is not surfaced to the
caller as a recoverable result — `finish` unwraps the error and panics. -/
theorem finish_error_result_is_panic_example :
    Build.finishOn (Build.empty : Build Nat Nat)
      (Except.error "set-matcher compilation failed") = PanicOr.panic := rfl

/-- C2 (amended): if compiling the set-matcher fails inside `finish()`, the
`unwrap` on the `RegexSet::new` result makes `finish` panic instead of
returning the error to the caller. -/
theorem finish_error_panics {M H : Type} (b : Build M H) (e : String) :
    b.finishOn (Except.error e) = PanicOr.panic := rfl


end Pathmaker
